import Mathlib

/-!
# Verification of the Suivi_futs deposit/balance reconciliation core

Shallow embedding of the core logic of `app.py` and `utils.py` of the
Suivi_futs repository (a keg/cup deposit tracker).  Relational rows are
embedded as Lean structures (the schema module `models.py` is not part of
the sources; field names and types follow the spec's data model section and
the way the two source files read and write those columns).  SQL queries are
embedded as folds over the row lists of a `Db` value; Python floats are
embedded as exact rationals (`ℚ`), with the 2-decimal `round` embedded as
rounding to a multiple of `1/100` (Python rounds halves to even, Mathlib's
`round` rounds halves up; no statement below depends on the value at an
exact tie).  Python `try/except` numeric conversions are embedded by giving
the convertible cell an explicit constructor (`DepCell.bad`, `RawField.bad`)
and total Lean functions that take the fallback branch there.
-/

/-- A stored numeric cell as seen by Python's `float(...)` conversion: either a
value the conversion succeeds on, or one that makes it raise (the
`try/except` in `compute_deposits_split`). -/
inductive DepCell where
  | val (q : ℚ)
  | bad
deriving DecidableEq, Repr

/-- `Product` row: id and free-text name (category membership is derived from
the name). -/
structure Product where
  id : Nat
  name : String
deriving DecidableEq, Repr

/-- `Variant` row: owned by a product, optional volume and optional default
unit price. -/
structure Variant where
  id : Nat
  productId : Nat
  size_l : Option ℚ
  price_ttc : Option ℚ
deriving DecidableEq, Repr

/-- `Movement` row of the append-only ledger.  `created_at` carries no
behaviour in the verified fragment and is omitted. -/
structure Movement where
  clientId : Nat
  variantId : Nat
  type : String
  qty : Option Int
  unit_price_ttc : Option ℚ
  deposit_per_keg : Option DepCell
  notes : Option String
deriving DecidableEq, Repr

/-- Database state.  `inventory` is the `Inventory` table as a total map
`variant_id ↦ qty` with absent rows read as `0` (`get_or_create_inventory`
creates missing rows with `qty=0`, and every read coalesces with `0`).
`rules` is the `ReorderRule` table as `(variant_id, min_qty)` pairs.
The `variants` list is kept in the order the catalog queries return rows
(`ORDER BY Product.name ASC, Variant.size_l ASC`); only the stock/alert
listings observe that order. -/
structure Db where
  products : List Product
  variants : List Variant
  movements : List Movement
  inventory : Nat → Int
  rules : List (Nat × Int)

-- -------------------- String helpers (Python `pat in hay` and `.lower()`) ------

/-- Python string containment helper: does `hay` start with `pat`? -/
def leadMatch : List Char → List Char → Bool
  | [], _ => true
  | _ :: _, [] => false
  | p :: ps, h :: hs => p == h && leadMatch ps hs

/-- Python `pat in hay` on the underlying character lists. -/
def subMatch (pat : List Char) : List Char → Bool
  | [] => leadMatch pat []
  | h :: hs => leadMatch pat (h :: hs) || subMatch pat hs

/-- Python `pat in hay` for strings. -/
def strIn (pat hay : String) : Bool := subMatch pat.data hay.data

/-- Python `str.lower()`.  ASCII letters are lowered; `É` (the only non-ASCII
capital relevant to the category markers, via `matériel`) is lowered too;
all other characters are untouched. -/
def pyLowerChar (c : Char) : Char :=
  if c = 'É' then 'é' else c.toLower

/-- Python `str.lower()` on a string. -/
def pyLower (s : String) : String := String.mk (s.data.map pyLowerChar)

/-- ASCII whitespace for `str.strip()` (the names at play only ever carry
these). -/
def isSpaceChar (c : Char) : Bool := c == ' ' || c == '\t' || c == '\n' || c == '\r'

/-- Drop leading whitespace from a character list. -/
def dropLeadSpace : List Char → List Char
  | [] => []
  | c :: cs => if isSpaceChar c then dropLeadSpace cs else c :: cs

/-- Python `str.strip()`. -/
def pyStrip (s : String) : String :=
  String.mk ((dropLeadSpace ((dropLeadSpace s.data).reverse)).reverse)

/-- `utils._lc`: `(s or "").strip().lower()`.  (`strip` cannot affect any of
the substring tests because no marker starts or ends with whitespace.) -/
def lcName (s : Option String) : String := pyLower (pyStrip (s.getD ""))

-- -------------------- Classification rules (utils.py / app.py) -----------------

/-- Cup marker: name contains `ecocup`, `eco cup` or `gobelet` (the name is
expected already lowered). -/
def cupMarker (n : String) : Bool :=
  strIn "ecocup" n || strIn "eco cup" n || strIn "gobelet" n

/-- Maintenance marker: name contains one of `lavage`, `perdu`, `perte`,
`wash`, `clean` (the name is expected already lowered). -/
def maintMarker (n : String) : Bool :=
  ["lavage", "perdu", "perte", "wash", "clean"].any (fun w => strIn w n)

/-- Equipment-only marker: name contains (`matériel` or `materiel`) and
`seul` (the name is expected already lowered). -/
def equipOnlyName (n : String) : Bool :=
  (strIn "matériel" n || strIn "materiel" n) && strIn "seul" n

/-- `_is_cup` as used inside `compute_deposits_split`: cup marker present and
no maintenance marker (on an already-lowered name). -/
def isCupNameLC (n : String) : Bool := cupMarker n && !maintMarker n

/-- `utils._is_cup_product` on an optional product. -/
def is_cup_product (p : Option Product) : Bool :=
  isCupNameLC (lcName (p.map (fun pp => pp.name)))

/-- `utils._is_cup_maintenance` on a product. -/
def is_cup_maintenance (p : Product) : Bool :=
  let n := lcName (some p.name)
  cupMarker n && maintMarker n

/-- `utils._is_equipment_only` on an optional product. -/
def is_equipment_only (p : Option Product) : Bool :=
  equipOnlyName (lcName (p.map (fun pp => pp.name)))

/-- `utils.default_deposit_for_product`: 0 for equipment-only, 1 for a
generic cup product, 30 otherwise (kegs and assimilated). -/
def default_deposit_for_product (p : Option Product) : ℚ :=
  if is_equipment_only p then 0
  else if is_cup_product p then 1
  else 30

-- -------------------- Rounding (Python round(x, 2) / round(x, 1)) --------------

/-- Python `round(x, 2)` over exact rationals: round to a multiple of `1/100`. -/
def roundc (q : ℚ) : ℚ := ((round (100 * q) : ℤ) : ℚ) / 100

/-- Python `round(x, 1)` over exact rationals: round to a multiple of `1/10`. -/
def roundTenth (q : ℚ) : ℚ := ((round (10 * q) : ℤ) : ℚ) / 10

-- -------------------- Balance aggregator (`_open_qty_by_variant`) --------------

/-- SQL `SUM(qty)` reads a NULL qty as contributing nothing. -/
def qtyInt (m : Movement) : Int := m.qty.getD 0

/-- The grouped sum of `qty` over a client's OUT movements of one variant
(`out_rows` of `_open_qty_by_variant`). -/
def outSum (ms : List Movement) (c v : Nat) : Int :=
  ((ms.filter (fun m => m.clientId == c && m.variantId == v && m.type == "OUT")).map qtyInt).sum

/-- The grouped sum of `qty` over a client's IN/DEFECT/FULL movements of one
variant (`back_rows` of `_open_qty_by_variant`). -/
def backSum (ms : List Movement) (c v : Nat) : Int :=
  ((ms.filter (fun m =>
    m.clientId == c && m.variantId == v
      && (m.type == "IN" || m.type == "DEFECT" || m.type == "FULL"))).map qtyInt).sum

/-- The key set of the two grouped queries: variants having at least one OUT
or one IN/DEFECT/FULL movement for the client (`set(out_rows) | set(back_rows)`). -/
def openVids (ms : List Movement) (c : Nat) : List Nat :=
  ((ms.filter (fun m =>
    m.clientId == c
      && (m.type == "OUT" || m.type == "IN" || m.type == "DEFECT" || m.type == "FULL"))).map
    (fun m => m.variantId)).dedup

/-- `_open_qty_by_variant` (identical in `utils.py` and `app.py`): the dict
`{variant_id: OUT - (IN + DEFECT + FULL)}` over the client's movements. -/
def open_qty_by_variant (db : Db) (c : Nat) : List (Nat × Int) :=
  (openVids db.movements c).map (fun v => (v, outSum db.movements c v - backSum db.movements c v))

/-- Dict read `open_map.get(vid, 0)`. -/
def openLookup (db : Db) (c v : Nat) : Int :=
  (((open_qty_by_variant db c).find? (fun e => e.1 == v)).map (fun e => e.2)).getD 0

-- -------------------- Generic lemmas ------------------------------------------

theorem find_pair_of_mem (f : Nat → Int) :
    ∀ (l : List Nat) (v : Nat), v ∈ l →
      (l.map (fun x => (x, f x))).find? (fun e => e.1 == v) = some (v, f v) := by
  intro l
  induction l with
  | nil => intro v hv; cases hv
  | cons a t ih =>
    intro v hv
    by_cases hav : a = v
    · subst hav
      simp [List.find?]
    · have hmem : v ∈ t := by
        rcases List.mem_cons.mp hv with h | h
        · exact absurd h.symm hav
        · exact h
      simp only [List.map_cons, List.find?_cons]
      have hbeq : (a == v) = false := by
        simp [hav]
      simp only [hbeq]
      exact ih v hmem

theorem find_pair_of_not_mem (f : Nat → Int) :
    ∀ (l : List Nat) (v : Nat), v ∉ l →
      (l.map (fun x => (x, f x))).find? (fun e => e.1 == v) = none := by
  intro l
  induction l with
  | nil => intro v _; rfl
  | cons a t ih =>
    intro v hv
    have hav : (a == v) = false := by
      simp only [beq_eq_false_iff_ne, ne_eq]
      intro h
      exact hv (h ▸ List.mem_cons_self a t)
    simp only [List.map_cons, List.find?_cons, hav]
    exact ih v (fun h => hv (List.mem_cons_of_mem a h))

theorem filtered_sum_perm {l l2 : List Movement} (h : l.Perm l2) (p : Movement → Bool) :
    ((l.filter p).map qtyInt).sum = ((l2.filter p).map qtyInt).sum :=
  ((h.filter p).map qtyInt).sum_eq

-- -------------------- C1 -------------------------------------------------------

/-- C1: for every client `c` and every variant `v`, the open quantity computed
by `_open_qty_by_variant` equals the sum of `qty` over the client's OUT
movements of `v` minus the sum over its IN/DEFECT/FULL movements, exactly, and
the value is unchanged under any permutation (recording order) of the ledger. -/
theorem open_quantity_signed_sum (db : Db) (ms2 : List Movement)
    (hperm : db.movements.Perm ms2) (c v : Nat) :
    openLookup db c v = outSum ms2 c v - backSum ms2 c v := by
  have hout : outSum db.movements c v = outSum ms2 c v := filtered_sum_perm hperm _
  have hback : backSum db.movements c v = backSum ms2 c v := filtered_sum_perm hperm _
  by_cases hv : v ∈ openVids db.movements c
  · unfold openLookup open_qty_by_variant
    rw [find_pair_of_mem _ _ _ hv]
    simp only [Option.map_some', Option.getD_some]
    rw [hout, hback]
  · unfold openLookup open_qty_by_variant
    rw [find_pair_of_not_mem _ _ _ hv]
    simp only [Option.map_none', Option.getD_none]
    have houtz : outSum ms2 c v = 0 := by
      unfold outSum
      have hnil : ms2.filter (fun m =>
          m.clientId == c && m.variantId == v && m.type == "OUT") = [] := by
        rw [List.filter_eq_nil_iff]
        intro m hm hpm
        simp only [Bool.and_eq_true, beq_iff_eq] at hpm
        apply hv
        unfold openVids
        rw [List.mem_dedup]
        refine List.mem_map.mpr ⟨m, ?_, hpm.1.2⟩
        refine List.mem_filter.mpr ⟨hperm.mem_iff.mpr hm, ?_⟩
        simp only [Bool.and_eq_true, Bool.or_eq_true, beq_iff_eq]
        refine ⟨hpm.1.1, ?_⟩
        tauto
      rw [hnil]
      rfl
    have hbackz : backSum ms2 c v = 0 := by
      unfold backSum
      have hnil : ms2.filter (fun m =>
          m.clientId == c && m.variantId == v
            && (m.type == "IN" || m.type == "DEFECT" || m.type == "FULL")) = [] := by
        rw [List.filter_eq_nil_iff]
        intro m hm hpm
        simp only [Bool.and_eq_true, Bool.or_eq_true, beq_iff_eq] at hpm
        apply hv
        unfold openVids
        rw [List.mem_dedup]
        refine List.mem_map.mpr ⟨m, ?_, hpm.1.2⟩
        refine List.mem_filter.mpr ⟨hperm.mem_iff.mpr hm, ?_⟩
        simp only [Bool.and_eq_true, Bool.or_eq_true, beq_iff_eq]
        refine ⟨hpm.1.1, ?_⟩
        tauto
      rw [hnil]
      rfl
    rw [houtz, hbackz]
    omega

/-- Concrete ledger used by several examples: one OUT of 5 and one IN of 3 of
variant 1 for client 1. -/
def exMovA : Movement := ⟨1, 1, "OUT", some 5, some 100, some (.val 30), none⟩

/-- The IN movement of the example ledger. -/
def exMovB : Movement := ⟨1, 1, "IN", some 3, none, some (.val 30), none⟩

/-- Example database for the C1 witness. -/
def exDb1 : Db :=
  ⟨[⟨1, "Ale"⟩], [⟨1, 1, some 30, some 100⟩], [exMovA, exMovB], fun _ => 0, []⟩

/-- Witness for C1 at a concrete ledger and a nontrivial reordering of it. -/
theorem open_quantity_signed_sum_witness :
    openLookup exDb1 1 1 = outSum [exMovB, exMovA] 1 1 - backSum [exMovB, exMovA] 1 1 :=
  open_quantity_signed_sum exDb1 [exMovB, exMovA] (List.Perm.swap exMovB exMovA []) 1 1

-- -------------------- Join (Movement x Variant x Product) ----------------------

/-- One row of the `Movement JOIN Variant JOIN Product` queries. -/
structure JoinRow where
  m : Movement
  v : Variant
  p : Product
deriving DecidableEq, Repr

/-- The inner join used by `compute_deposits_split` and
`_beer_totals_for_client`.  Row ids are unique in a well-formed database, so
`find?` picks the join partner. -/
def joinRows (db : Db) : List JoinRow :=
  db.movements.filterMap (fun m =>
    (db.variants.find? (fun v => v.id == m.variantId)).bind (fun v =>
      (db.products.find? (fun p => p.id == v.productId)).map (fun p => ⟨m, v, p⟩)))

-- -------------------- Deposit split calculator (`compute_deposits_split`) ------

/-- The sign chain of the loop body: `OUT = +1`, `IN/DEFECT/FULL = -1`, any
other type `0`. -/
def depSign (t : String) : Int :=
  if t == "OUT" then 1
  else if t == "IN" || t == "DEFECT" || t == "FULL" then -1
  else 0

/-- Per-unit deposit of a line: the override if its `float(...)` conversion
succeeds, otherwise (absent or malformed) the category default `1`/`30`. -/
def depValOf (cup : Bool) (dep : Option DepCell) : ℚ :=
  match dep with
  | none => if cup then 1 else 30
  | some (.val q) => q
  | some .bad => if cup then 1 else 30

/-- One iteration of the `compute_deposits_split` loop over the accumulator
`(cup_eur, cup_qty, keg_eur, keg_qty)`. -/
def depStep (acc : ℚ × Int × ℚ × Int) (r : JoinRow) : ℚ × Int × ℚ × Int :=
  if r.m.qty.getD 0 == 0 then acc
  else
    let s := depSign r.m.type
    if s == 0 then acc
    else
      let name_lc := pyLower r.p.name
      if equipOnlyName name_lc then acc
      else
        let cup := isCupNameLC name_lc
        let dv := depValOf cup r.m.deposit_per_keg
        let q := r.m.qty.getD 0
        if cup then (acc.1 + (s : ℚ) * dv * (q : ℚ), acc.2.1 + s * q, acc.2.2.1, acc.2.2.2)
        else (acc.1, acc.2.1, acc.2.2.1 + (s : ℚ) * dv * (q : ℚ), acc.2.2.2 + s * q)

/-- The loop of `compute_deposits_split`. -/
def depFold (acc : ℚ × Int × ℚ × Int) : List JoinRow → ℚ × Int × ℚ × Int
  | [] => acc
  | r :: rest => depFold (depStep acc r) rest

/-- The query rows of `compute_deposits_split`: the client's movements joined
to variant and product. -/
def depRows (db : Db) (c : Nat) : List JoinRow :=
  (joinRows db).filter (fun r => r.m.clientId == c)

/-- `utils.compute_deposits_split`: `(cup_eur, cup_qty, keg_eur, keg_qty)`,
euro totals rounded to cents on return. -/
def compute_deposits_split (db : Db) (c : Nat) : ℚ × Int × ℚ × Int :=
  let t := depFold (0, 0, 0, 0) (depRows db c)
  (roundc t.1, t.2.1, roundc t.2.2.1, t.2.2.2)

/-- The sign convention exactly as the claim states it. -/
def claimSign (t : String) : Int :=
  if t = "OUT" then 1 else if t = "IN" ∨ t = "DEFECT" ∨ t = "FULL" then -1 else 0

/-- Per-unit deposit exactly as the claim states it: the line override when
present and numerically valid, otherwise (including a malformed override,
without raising) the category default: 1.00 for a reusable-cup product, 30.00
otherwise. -/
def claimDeposit (cup : Bool) (dep : Option DepCell) : ℚ :=
  match dep with
  | some (.val q) => q
  | _ => if cup then 1 else 30

/-- `Σ sign*deposit*qty` over the client's non-equipment-only ledger lines,
exactly as the claim states it. -/
def depClaimSum (db : Db) (c : Nat) : ℚ :=
  (((depRows db c).filter (fun r => !equipOnlyName (pyLower r.p.name))).map (fun r =>
    ((claimSign r.m.type : ℤ) : ℚ)
      * claimDeposit (isCupNameLC (pyLower r.p.name)) r.m.deposit_per_keg
      * ((r.m.qty.getD 0 : ℤ) : ℚ))).sum

theorem depSign_eq_claimSign (t : String) : depSign t = claimSign t := by
  unfold depSign claimSign
  by_cases h1 : t = "OUT" <;> by_cases h2 : t = "IN" <;>
    by_cases h3 : t = "DEFECT" <;> by_cases h4 : t = "FULL" <;>
    simp [h1, h2, h3, h4]

theorem depValOf_eq_claimDeposit (cup : Bool) (d : Option DepCell) :
    depValOf cup d = claimDeposit cup d := by
  cases d with
  | none => rfl
  | some dc => cases dc <;> rfl

theorem depStep_euro (acc : ℚ × Int × ℚ × Int) (r : JoinRow) :
    (depStep acc r).1 + (depStep acc r).2.2.1 =
      acc.1 + acc.2.2.1 +
        (if equipOnlyName (pyLower r.p.name) then 0 else
          ((claimSign r.m.type : ℤ) : ℚ)
            * claimDeposit (isCupNameLC (pyLower r.p.name)) r.m.deposit_per_keg
            * ((r.m.qty.getD 0 : ℤ) : ℚ)) := by
  unfold depStep
  rw [← depSign_eq_claimSign, ← depValOf_eq_claimDeposit]
  by_cases hq : r.m.qty.getD 0 = 0
  · rw [hq]
    simp
  · have hqb : (r.m.qty.getD 0 == 0) = false := by simp [hq]
    simp only [hqb, Bool.false_eq_true, if_false]
    by_cases hs0 : depSign r.m.type = 0
    · simp [hs0]
    · have hsb : (depSign r.m.type == 0) = false := by simp [hs0]
      simp only [hsb, Bool.false_eq_true, if_false]
      by_cases he : equipOnlyName (pyLower r.p.name)
      · simp [he]
      · simp only [he, Bool.false_eq_true, if_false]
        by_cases hc : isCupNameLC (pyLower r.p.name)
        · simp [hc]
          ring
        · simp [hc]
          ring

theorem depFold_euro_sum (rows : List JoinRow) :
    ∀ acc : ℚ × Int × ℚ × Int,
      (depFold acc rows).1 + (depFold acc rows).2.2.1 =
        acc.1 + acc.2.2.1 +
          ((rows.filter (fun r => !equipOnlyName (pyLower r.p.name))).map (fun r =>
            ((claimSign r.m.type : ℤ) : ℚ)
              * claimDeposit (isCupNameLC (pyLower r.p.name)) r.m.deposit_per_keg
              * ((r.m.qty.getD 0 : ℤ) : ℚ))).sum := by
  induction rows with
  | nil => intro acc; simp [depFold]
  | cons r rest ih =>
    intro acc
    show (depFold (depStep acc r) rest).1 + (depFold (depStep acc r) rest).2.2.1 = _
    rw [ih (depStep acc r), depStep_euro acc r]
    by_cases he : equipOnlyName (pyLower r.p.name)
    · simp [he, List.filter_cons]
    · simp only [he, Bool.false_eq_true, if_false, List.filter_cons, Bool.not_false,
        if_true, List.map_cons, List.sum_cons]
      ring

/-- C2 (amended): `compute_deposits_split` skips equipment-only lines, signs
OUT as `+1` and IN/DEFECT/FULL as `-1` (anything else contributes nothing),
uses the line override when its conversion succeeds and the category default
otherwise (never raising on a malformed override), and its accumulated euro
totals, before the final rounding of each bucket to cents, satisfy
`cup + keg = Σ sign*deposit*qty` over all non-equipment-only lines. -/
theorem deposits_split_amended (db : Db) (c : Nat) :
    compute_deposits_split db c =
        (roundc (depFold (0, 0, 0, 0) (depRows db c)).1,
         (depFold (0, 0, 0, 0) (depRows db c)).2.1,
         roundc (depFold (0, 0, 0, 0) (depRows db c)).2.2.1,
         (depFold (0, 0, 0, 0) (depRows db c)).2.2.2)
    ∧ (depFold (0, 0, 0, 0) (depRows db c)).1 + (depFold (0, 0, 0, 0) (depRows db c)).2.2.1
        = depClaimSum db c
    ∧ ∀ (cup : Bool) (d : Option DepCell), depValOf cup d = claimDeposit cup d := by
  refine ⟨rfl, ?_, depValOf_eq_claimDeposit⟩
  have h := depFold_euro_sum (depRows db c) (0, 0, 0, 0)
  simpa [depClaimSum] using h

/-- Database with a single keg line whose deposit override is 0.004 €. -/
def exDb2 : Db :=
  ⟨[⟨1, "Ale"⟩], [⟨1, 1, some 30, some 100⟩],
   [⟨1, 1, "OUT", some 1, some 100, some (.val (1 / 250)), none⟩], fun _ => 0, []⟩

/-- C2 counterexample: with a present and numerically valid deposit override
of 0.004 €, the euro totals returned by `compute_deposits_split` (rounded to
cents) sum to 0 while `Σ sign*deposit*qty` over the non-equipment-only lines
is 0.004, so the claimed exact identity fails. -/
theorem deposits_split_counterexample :
    ¬ ((compute_deposits_split exDb2 1).1 + (compute_deposits_split exDb2 1).2.2.1
        = depClaimSum exDb2 1) := by
  intro h
  have he : equipOnlyName (pyLower "Ale") = false := by decide
  have hcup : isCupNameLC (pyLower "Ale") = false := by decide
  have h1 : depFold (0, 0, 0, 0) (depRows exDb2 1) = (0, 0, 1 / 250, 1) := by
    norm_num [depRows, joinRows, exDb2, depFold, depStep, depSign, depValOf, he, hcup]
  have h3 : depClaimSum exDb2 1 = 1 / 250 := by
    norm_num [depClaimSum, depRows, joinRows, exDb2, claimSign, claimDeposit, he, hcup,
      List.filterMap_cons, List.filter_cons]
  simp only [compute_deposits_split, h1, h3] at h
  norm_num [roundc, round_eq] at h

-- -------------------- Revenue/volume aggregator (`_beer_totals_for_client`) ----

/-- WHERE clause of `_beer_totals_for_client`: the client's OUT movements
whose product name is neither maintenance-cup nor equipment-only (the SQL
`LIKE` tests on `lower(Product.name)`). -/
def beerKeep (c : Nat) (r : JoinRow) : Bool :=
  r.m.clientId == c && r.m.type == "OUT"
    && !(cupMarker (pyLower r.p.name) && maintMarker (pyLower r.p.name))
    && !equipOnlyName (pyLower r.p.name)

/-- Rows of the `_beer_totals_for_client` query. -/
def beerRows (db : Db) (c : Nat) : List JoinRow :=
  (joinRows db).filter (beerKeep c)

/-- `utils._beer_totals_for_client`:
`(Σ qty*coalesce(size_l,0), Σ qty*coalesce(unit_price_ttc,0))` over the kept
rows (SQL `SUM` reads a NULL product as 0). -/
def beer_totals_for_client (db : Db) (c : Nat) : ℚ × ℚ :=
  (((beerRows db c).map (fun r => ((r.m.qty.getD 0 : ℤ) : ℚ) * r.v.size_l.getD 0)).sum,
   ((beerRows db c).map (fun r => ((r.m.qty.getD 0 : ℤ) : ℚ) * r.m.unit_price_ttc.getD 0)).sum)

/-- Effective unit price exactly as the claim states it: the movement's
override when present, else the variant's default price, else zero. -/
def claimEffPrice (m : Movement) (v : Variant) : ℚ :=
  match m.unit_price_ttc with
  | some q => q
  | none => v.price_ttc.getD 0

/-- The claim's billed amount: `Σ qty*effective_unit_price` over the client's
OUT movements, excluding maintenance-cup and equipment-only lines. -/
def claimBeerEur (db : Db) (c : Nat) : ℚ :=
  ((joinRows db).map (fun r =>
    if beerKeep c r then ((r.m.qty.getD 0 : ℤ) : ℚ) * claimEffPrice r.m r.v else 0)).sum

/-- The claim's liters: `Σ qty*size_l` over the same lines. -/
def claimBeerLiters (db : Db) (c : Nat) : ℚ :=
  ((joinRows db).map (fun r =>
    if beerKeep c r then ((r.m.qty.getD 0 : ℤ) : ℚ) * r.v.size_l.getD 0 else 0)).sum

theorem sum_map_ite_filter {α : Type} (p : α → Bool) (f : α → ℚ) :
    ∀ l : List α, ((l.filter p).map f).sum = (l.map (fun a => if p a then f a else 0)).sum := by
  intro l
  induction l with
  | nil => rfl
  | cons a t ih =>
    by_cases h : p a
    · simp [List.filter_cons, h, ih]
    · simp [List.filter_cons, h, ih]

/-- C3 (amended): the revenue/volume aggregator sums only over the client's
OUT movements, excluding maintenance-cup and equipment-only lines, returning
`Σ qty*size_l` for liters and `Σ qty*stored_unit_price` for the billed
amount, where the movement's stored unit price is read as zero when absent;
the fallback to the variant's default price happens when a movement is
recorded (`movement_wizard`), not in this aggregator. -/
theorem beer_totals_amended (db : Db) (c : Nat) :
    beer_totals_for_client db c =
      (claimBeerLiters db c,
       ((joinRows db).map (fun r =>
         if beerKeep c r then ((r.m.qty.getD 0 : ℤ) : ℚ) * r.m.unit_price_ttc.getD 0
         else 0)).sum) := by
  unfold beer_totals_for_client claimBeerLiters beerRows
  rw [sum_map_ite_filter, sum_map_ite_filter]

/-- Database with one OUT movement storing no unit price on a variant whose
default price is 100. -/
def exDb3 : Db :=
  ⟨[⟨1, "Ale"⟩], [⟨1, 1, some 30, some 100⟩],
   [⟨1, 1, "OUT", some 1, none, some (.val 30), none⟩], fun _ => 0, []⟩

/-- C3 counterexample: an OUT movement with absent unit-price override on a
variant with default price 100 is billed 0 by `_beer_totals_for_client`,
while the claim's effective unit price bills it 100. -/
theorem beer_totals_counterexample :
    (beer_totals_for_client exDb3 1).2 = 0 ∧ claimBeerEur exDb3 1 = 100 ∧
      ¬ ((beer_totals_for_client exDb3 1).2 = claimBeerEur exDb3 1) := by
  have hk : beerKeep 1 ⟨⟨1, 1, "OUT", some 1, none, some (.val 30), none⟩,
      ⟨1, 1, some 30, some 100⟩, ⟨1, "Ale"⟩⟩ = true := by decide
  have h0 : (beer_totals_for_client exDb3 1).2 = 0 := by
    norm_num [beer_totals_for_client, beerRows, joinRows, exDb3,
      List.filterMap_cons, List.filter_cons, hk]
  have h100 : claimBeerEur exDb3 1 = 100 := by
    norm_num [claimBeerEur, joinRows, exDb3, List.filterMap_cons, hk, claimEffPrice]
  refine ⟨h0, h100, ?_⟩
  rw [h0, h100]
  norm_num

-- -------------------- Per-client summary and deletion guard --------------------

/-- The summary dict returned by `utils.summarize_client_detail`. -/
structure ClientDetail where
  liters_out_cum : ℚ
  beer_eur : ℚ
  deposit_eur : ℚ
  deposit_cup_eur : ℚ
  deposit_keg_eur : ℚ
  cup_qty_in_play : Int
  keg_qty_in_play : Int
  equipment : List (String × Int)
deriving DecidableEq, Repr

/-- `utils.summarize_client_detail`: splits, beer totals, their rounded
presentation, and the `equipment` dict (the literal `{}` of the source). -/
def summarize_client_detail (db : Db) (c : Nat) : ClientDetail :=
  let s := compute_deposits_split db c
  let bt := beer_totals_for_client db c
  { liters_out_cum := roundTenth bt.1
    beer_eur := roundc bt.2
    deposit_eur := roundc (s.1 + s.2.2.1)
    deposit_cup_eur := roundc s.1
    deposit_keg_eur := roundc s.2.2.1
    cup_qty_in_play := s.2.1
    keg_qty_in_play := s.2.2.2
    equipment := [] }

/-- `client_delete`: sum of the strictly positive open balances. -/
def openPosTotal (db : Db) (c : Nat) : Int :=
  (((open_qty_by_variant db c).map (fun e => e.2)).filter (fun q => decide (0 < q))).sum

/-- `client_delete`: sum of the values of the summary's equipment dict. -/
def equipment_in_play (db : Db) (c : Nat) : Int :=
  ((summarize_client_detail db c).equipment.map (fun e => e.2)).sum

/-- The deletion guard of `client_delete` (the same computation appears in
`client_confirm_delete`): blocked when open units remain, or the absolute
deposit exceeds `eps_eur = 0.01`, or equipment is in play. -/
def client_delete_blocked (db : Db) (c : Nat) : Prop :=
  0 < openPosTotal db c
    ∨ (1 / 100 : ℚ) < |(summarize_client_detail db c).deposit_eur|
    ∨ 0 < equipment_in_play db c

theorem roundc_int_over_100 (n : ℤ) : roundc ((n : ℚ) / 100) = (n : ℚ) / 100 := by
  unfold roundc
  have h : (100 : ℚ) * ((n : ℚ) / 100) = (n : ℚ) := by ring
  rw [h, round_intCast]

theorem roundc_add_fix (a b : ℚ) : roundc (roundc a + roundc b) = roundc a + roundc b := by
  show roundc ((round (100 * a) : ℤ) / 100 + ((round (100 * b) : ℤ) : ℚ) / 100) = _
  rw [div_add_div_same, ← Int.cast_add, roundc_int_over_100]
  unfold roundc
  rw [Int.cast_add, ← div_add_div_same]

/-- C5: the deletion guard blocks iff at least one of the three conditions
holds: the sum of positive open quantities is positive, the absolute total
deposit (the sum of the cup and keg euro totals returned by
`compute_deposits_split`) exceeds 0.01, or the equipment-in-play total is
positive; in particular it never blocks when all three are zero. -/
theorem delete_guard_blocks_iff (db : Db) (c : Nat) :
    client_delete_blocked db c ↔
      (0 < openPosTotal db c
        ∨ (1 / 100 : ℚ) <
            |(compute_deposits_split db c).1 + (compute_deposits_split db c).2.2.1|
        ∨ 0 < equipment_in_play db c) := by
  unfold client_delete_blocked
  have h : (summarize_client_detail db c).deposit_eur =
      (compute_deposits_split db c).1 + (compute_deposits_split db c).2.2.1 := by
    show roundc ((compute_deposits_split db c).1 + (compute_deposits_split db c).2.2.1) = _
    exact roundc_add_fix _ _
  rw [h]

/-- C10: the per-client summary returns an empty equipment map for every
ledger state, so the deletion guard's equipment total is always 0 and its
equipment condition never contributes: the guard reduces to the open-units
and deposit conditions. -/
theorem equipment_never_blocks (db : Db) (c : Nat) :
    (summarize_client_detail db c).equipment = []
    ∧ equipment_in_play db c = 0
    ∧ (client_delete_blocked db c ↔
        (0 < openPosTotal db c
          ∨ (1 / 100 : ℚ) < |(summarize_client_detail db c).deposit_eur|)) := by
  refine ⟨rfl, rfl, ?_⟩
  unfold client_delete_blocked
  have h0 : equipment_in_play db c = 0 := rfl
  rw [h0]
  constructor
  · rintro (h | h | h)
    · exact Or.inl h
    · exact Or.inr h
    · exact absurd h (lt_irrefl 0)
  · rintro (h | h)
    · exact Or.inl h
    · exact Or.inr (Or.inl h)

-- -------------------- C7: equipment annotations in notes -----------------------

/-- Database whose single movement carries the equipment annotation
`tireuse=1;co2=2` in its notes. -/
def exDb7 : Db :=
  ⟨[⟨1, "Fût Blonde"⟩], [⟨1, 1, some 30, some 100⟩],
   [⟨1, 1, "OUT", some 1, some 100, some (.val 30), some "tireuse=1;co2=2"⟩],
   fun _ => 0, []⟩

/-- C7 counterexample: with notes `tireuse=1;co2=2` on a movement, the
summary's equipment map is empty — no key `tireuse` with count 1 is produced,
contradicting the claimed parse result. -/
theorem equipment_parse_counterexample :
    (summarize_client_detail exDb7 1).equipment = []
    ∧ ¬ ((summarize_client_detail exDb7 1).equipment.lookup "tireuse" = some 1) := by
  constructor
  · rfl
  · intro h
    rw [show (summarize_client_detail exDb7 1).equipment = ([] : List (String × Int))
      from rfl] at h
    simp at h

/-- C7 (amended): the per-client summary never parses the notes field: its
equipment map is the empty dict for every database and client, and every key
reads as absent. -/
theorem equipment_map_always_empty (db : Db) (c : Nat) :
    (summarize_client_detail db c).equipment = []
    ∧ ∀ k : String, (summarize_client_detail db c).equipment.lookup k = none :=
  ⟨rfl, fun _ => rfl⟩

-- -------------------- Movement wizard, step 4 (`movement_wizard`) --------------

/-- A raw form field as seen by the numeric `int(...)`/`float(...)`
conversions of step 4: absent/empty (falsy), malformed (the conversion
raises), or a parsed value. -/
inductive RawField (α : Type) where
  | missing
  | bad
  | val (a : α)
deriving DecidableEq, Repr

/-- `qty_int = max(0, int(q_raw)) if q_raw not in (None, "") else 0`, with the
`except` branch also giving 0. -/
def parseQty (r : RawField Int) : Int :=
  match r with
  | .val n => max 0 n
  | _ => 0

/-- An optional money override: `None` when the field is absent, `float(...)`
with the `except` branch giving `None`. -/
def parseMoney (r : RawField ℚ) : Option ℚ :=
  match r with
  | .val q => some q
  | _ => none

/-- The violation label built in step 4 (`f"{p.name} — {v.size_l} L"` when
the product exists and the size is truthy, else the name, else `Var#id`; the
numeral rendering differs from Python, no claim depends on the text). -/
def labelFor (p : Option Product) (v : Variant) (vid : Nat) : String :=
  match p with
  | some pp =>
    if v.size_l.getD 0 ≠ 0 then pp.name ++ " — " ++ toString (v.size_l.getD 0) ++ " L"
    else pp.name
  | none => "Var#" ++ toString vid

/-- The submitted form and session state consumed by step 4 of
`movement_wizard`. -/
structure WizardCtx where
  db : Db
  client_id : Nat
  mtype : String
  variant_ids : List (RawField Nat)
  qtys : List (RawField Int)
  unit_prices : List (RawField ℚ)
  deposits : List (RawField ℚ)
  notes : Option String
  eq_tireuse : Option Int
  eq_co2 : Option Int
  eq_comptoir : Option Int
  eq_tonnelle : Option Int

/-- The notes assembled from the four equipment fields and the free-text
notes: `(";".join(equip_parts) + (";" + notes if notes else "")) or None`. -/
def eqNotes (ctx : WizardCtx) : Option String :=
  let parts :=
    (if ctx.eq_tireuse.getD 0 ≠ 0 then ["tireuse=" ++ toString (ctx.eq_tireuse.getD 0)] else [])
    ++ (if ctx.eq_co2.getD 0 ≠ 0 then ["co2=" ++ toString (ctx.eq_co2.getD 0)] else [])
    ++ (if ctx.eq_comptoir.getD 0 ≠ 0 then
          ["comptoir=" ++ toString (ctx.eq_comptoir.getD 0)] else [])
    ++ (if ctx.eq_tonnelle.getD 0 ≠ 0 then
          ["tonnelle=" ++ toString (ctx.eq_tonnelle.getD 0)] else [])
  let base := String.intercalate ";" parts
  let full := base ++ (match ctx.notes with
    | some n => if n ≠ "" then ";" ++ n else ""
    | none => "")
  if full = "" then none else some full

/-- Outcome of one iteration of the step-4 loop: silently skipped
(`continue`), a movement to insert, or a return-exceeds-balance violation. -/
inductive LineResult where
  | skip
  | insert (m : Movement)
  | violation (label : String) (openq : Int)
deriving DecidableEq, Repr

/-- Dict read `open_map.get(vid, 0)` against a materialised open map. -/
def openGet (om : List (Nat × Int)) (v : Nat) : Int :=
  ((om.find? (fun e => e.1 == v)).map (fun e => e.2)).getD 0

/-- The body of the step-4 loop for index `i`.  `om` is the open map computed
once before the loop (only for IN batches).  Equipment-only products are
forced to qty 0, price 0, deposit 0 and always recorded; otherwise an absent
price falls back to the variant default and an absent deposit to the category
default, and IN lines exceeding the open balance become violations. -/
def lineOutcome (ctx : WizardCtx) (om : List (Nat × Int)) (i : Nat) : LineResult :=
  match ctx.variant_ids.get? i with
  | none => .skip
  | some .missing => .skip
  | some .bad => .skip
  | some (.val vid) =>
    let qty_int := parseQty (ctx.qtys.getD i .missing)
    let up0 := parseMoney (ctx.unit_prices.getD i .missing)
    let dep0 := parseMoney (ctx.deposits.getD i .missing)
    match ctx.db.variants.find? (fun v => v.id == vid) with
    | none => .skip
    | some v =>
      let p := ctx.db.products.find? (fun pp => pp.id == v.productId)
      let pname := (p.map (fun pp => pp.name)).getD ""
      if equipOnlyName (pyLower pname) then
        .insert ⟨ctx.client_id, vid, ctx.mtype, some 0, some 0, some (.val 0), eqNotes ctx⟩
      else
        let up := match up0 with
          | some q => some q
          | none => v.price_ttc
        let dep := match dep0 with
          | some q => q
          | none => default_deposit_for_product p
        if ctx.mtype == "IN" then
          let open_q := openGet om vid
          if open_q ≤ 0 ∨ qty_int > open_q then
            .violation (labelFor p v vid) open_q
          else
            .insert ⟨ctx.client_id, vid, ctx.mtype, some qty_int, up, some (.val dep),
              eqNotes ctx⟩
        else
          .insert ⟨ctx.client_id, vid, ctx.mtype, some qty_int, up, some (.val dep),
            eqNotes ctx⟩

/-- Inventory side effect of recording one movement line (`movement_wizard`,
step 4): OUT decrements the variant's stock by the line qty, FULL increments
it, anything else leaves it unchanged. -/
def invInsertDelta (inv : Nat → Int) (t : String) (vid : Nat) (q : Int) : Nat → Int :=
  if t == "OUT" then Function.update inv vid (inv vid - q)
  else if t == "FULL" then Function.update inv vid (inv vid + q)
  else inv

/-- Inventory side effect of `movement_delete`: when the movement has a qty
and a truthy (nonzero) variant id, OUT adds the qty back and FULL removes
it. -/
def invDeleteDelta (inv : Nat → Int) (m : Movement) : Nat → Int :=
  if m.qty.isSome ∧ m.variantId ≠ 0 then
    if m.type == "OUT" then Function.update inv m.variantId (inv m.variantId + m.qty.getD 0)
    else if m.type == "FULL" then
      Function.update inv m.variantId (inv m.variantId - m.qty.getD 0)
    else inv
  else inv

/-- State threaded through the step-4 loop: pending inserts, the session's
inventory, the violation list, the inserted counter. -/
structure WizState where
  pend : List Movement
  inv : Nat → Int
  viol : List (String × Int)
  ins : Nat

/-- One iteration of the step-4 loop over the threaded state. -/
def step4Step (ctx : WizardCtx) (om : List (Nat × Int)) (st : WizState) (i : Nat) : WizState :=
  match lineOutcome ctx om i with
  | .skip => st
  | .violation lab oq => ⟨st.pend, st.inv, st.viol ++ [(lab, oq)], st.ins⟩
  | .insert m =>
    ⟨st.pend ++ [m], invInsertDelta st.inv m.type m.variantId (m.qty.getD 0), st.viol,
     st.ins + 1⟩

/-- Result of the POST handler of step 4. -/
structure Step4Out where
  db : Db
  violations : List (String × Int)
  inserted : Nat

/-- Step 4 of `movement_wizard` (POST): parse and validate each submitted
line, insert the surviving ones, and commit only when at least one line was
inserted (without a commit the session's pending changes are discarded). -/
def movement_wizard_step4 (ctx : WizardCtx) : Step4Out :=
  let om := if ctx.mtype == "IN" then open_qty_by_variant ctx.db ctx.client_id else []
  let n := max ctx.variant_ids.length ctx.qtys.length
  let st := (List.range n).foldl (step4Step ctx om) ⟨[], ctx.db.inventory, [], 0⟩
  if 0 < st.ins then
    ⟨{ ctx.db with movements := ctx.db.movements ++ st.pend, inventory := st.inv },
     st.viol, st.ins⟩
  else
    ⟨ctx.db, st.viol, st.ins⟩

/-- The movement a line contributes, if any. -/
def lineInsert (ctx : WizardCtx) (om : List (Nat × Int)) (i : Nat) : Option Movement :=
  match lineOutcome ctx om i with
  | .insert m => some m
  | _ => none

/-- The violation a line contributes, if any. -/
def lineViolation (ctx : WizardCtx) (om : List (Nat × Int)) (i : Nat) : Option (String × Int) :=
  match lineOutcome ctx om i with
  | .violation lab oq => some (lab, oq)
  | _ => none

/-- A ledger row as relevant to the inventory round trip. -/
def mkMov (c vid : Nat) (t : String) (q : Int) : Movement :=
  ⟨c, vid, t, some q, none, none, none⟩

-- -------------------- C6 -------------------------------------------------------

/-- C6: creating an OUT movement decrements its variant's inventory by the
movement qty and FULL increments it; IN and DEFECT leave the inventory
untouched; `movement_delete` applies the exact inverse delta (OUT adds back,
FULL removes), so recording any movement and then deleting it restores the
inventory map exactly. -/
theorem inventory_round_trip (inv : Nat → Int) (c vid : Nat) (q : Int) (t : String)
    (hvid : vid ≠ 0) :
    invInsertDelta inv "OUT" vid q vid = inv vid - q
    ∧ invInsertDelta inv "FULL" vid q vid = inv vid + q
    ∧ invInsertDelta inv "IN" vid q = inv
    ∧ invInsertDelta inv "DEFECT" vid q = inv
    ∧ invDeleteDelta inv (mkMov c vid "OUT" q) vid = inv vid + q
    ∧ invDeleteDelta inv (mkMov c vid "FULL" q) vid = inv vid - q
    ∧ invDeleteDelta (invInsertDelta inv t vid q) (mkMov c vid t q) = inv := by
  refine ⟨?_, ?_, rfl, rfl, ?_, ?_, ?_⟩
  · simp [invInsertDelta]
  · simp [invInsertDelta]
  · simp [invDeleteDelta, mkMov, hvid]
  · simp [invDeleteDelta, mkMov, hvid]
  · by_cases h1 : t = "OUT"
    · subst h1
      simp [invInsertDelta, invDeleteDelta, mkMov, hvid]
    · by_cases h2 : t = "FULL"
      · subst h2
        simp [invInsertDelta, invDeleteDelta, mkMov, hvid, h1]
      · simp [invInsertDelta, invDeleteDelta, mkMov, hvid, h1, h2]

/-- Witness for C6: a concrete inventory, variant and OUT movement. -/
theorem inventory_round_trip_witness :
    invInsertDelta (fun _ => 0) "OUT" 2 5 2 = (fun _ => (0 : Int)) 2 - 5
    ∧ invInsertDelta (fun _ => 0) "FULL" 2 5 2 = (fun _ => (0 : Int)) 2 + 5
    ∧ invInsertDelta (fun _ => 0) "IN" 2 5 = (fun _ => (0 : Int))
    ∧ invInsertDelta (fun _ => 0) "DEFECT" 2 5 = (fun _ => (0 : Int))
    ∧ invDeleteDelta (fun _ => 0) (mkMov 1 2 "OUT" 5) 2 = (fun _ => (0 : Int)) 2 + 5
    ∧ invDeleteDelta (fun _ => 0) (mkMov 1 2 "FULL" 5) 2 = (fun _ => (0 : Int)) 2 - 5
    ∧ invDeleteDelta (invInsertDelta (fun _ => 0) "OUT" 2 5) (mkMov 1 2 "OUT" 5)
        = (fun _ => (0 : Int)) :=
  inventory_round_trip (fun _ => 0) 1 2 5 "OUT" (by decide)

theorem step4_fold_spec (ctx : WizardCtx) (om : List (Nat × Int)) :
    ∀ (l : List Nat) (st : WizState),
      l.foldl (step4Step ctx om) st =
        ⟨st.pend ++ l.filterMap (lineInsert ctx om),
         (l.filterMap (lineInsert ctx om)).foldl
           (fun iv m => invInsertDelta iv m.type m.variantId (m.qty.getD 0)) st.inv,
         st.viol ++ l.filterMap (lineViolation ctx om),
         st.ins + (l.filterMap (lineInsert ctx om)).length⟩ := by
  intro l
  induction l with
  | nil => intro st; simp
  | cons i t ih =>
    intro st
    rw [List.foldl_cons, ih]
    cases h : lineOutcome ctx om i with
    | skip =>
      simp [step4Step, h, lineInsert, lineViolation, List.filterMap_cons]
    | insert m =>
      simp [step4Step, h, lineInsert, lineViolation, List.filterMap_cons,
        List.append_assoc]
      all_goals omega
    | violation lab oq =>
      simp [step4Step, h, lineInsert, lineViolation, List.filterMap_cons,
        List.append_assoc]

-- -------------------- C4 -------------------------------------------------------

/-- The step-4 normal form: per-line outcomes computed independently (over
the open map materialised before the loop), the ledger extended by exactly
the accepted lines in submission order, the violations listed in order, and
the database left untouched when nothing was inserted. -/
def step4Spec (ctx : WizardCtx) : Step4Out :=
  let om := if ctx.mtype == "IN" then open_qty_by_variant ctx.db ctx.client_id else []
  let idx := List.range (max ctx.variant_ids.length ctx.qtys.length)
  let ins := idx.filterMap (lineInsert ctx om)
  let vio := idx.filterMap (lineViolation ctx om)
  if 0 < ins.length then
    ⟨{ ctx.db with
        movements := ctx.db.movements ++ ins,
        inventory := ins.foldl
          (fun iv m => invInsertDelta iv m.type m.variantId (m.qty.getD 0))
          ctx.db.inventory },
     vio, ins.length⟩
  else ⟨ctx.db, vio, ins.length⟩

/-- C4 (amended): per-line validation, not per-batch: an IN line whose qty
exceeds the variant's open balance (or whose variant has no positive open
balance) is skipped and reported as a violation and no movement is recorded
for it, while the remaining valid lines of the same batch are inserted and
committed; the database is left unchanged only when no line at all was
inserted.  The outcome of each line is independent of the others (the open
map is computed once, before the loop): `movement_wizard` step 4 equals its
per-line normal form `step4Spec`. -/
theorem movement_batch_amended (ctx : WizardCtx) :
    movement_wizard_step4 ctx = step4Spec ctx := by
  simp only [movement_wizard_step4, step4Spec]
  rw [step4_fold_spec]
  simp

/-- Step-4 submission for the C4 counterexample: with 5 kegs of variant 1
open at client 1, an IN batch returns 3 and then 99. -/
def exCtx4 : WizardCtx :=
  ⟨⟨[⟨1, "Ale"⟩], [⟨1, 1, some 30, some 100⟩],
    [⟨1, 1, "OUT", some 5, some 100, some (.val 30), none⟩], fun _ => 0, []⟩,
   1, "IN", [.val 1, .val 1], [.val 3, .val 99], [.missing, .missing],
   [.missing, .missing], none, none, none, none, none⟩

/-- C4 counterexample: the batch contains an IN line (qty 99) exceeding the
open balance 5, yet the submission is not rejected as a whole: the valid
line is committed (the ledger grows from 1 row to 2) and the open balance
drops from 5 to 2, so ledger and balances are not left unchanged. -/
theorem movement_batch_counterexample :
    openLookup exCtx4.db 1 1 = 5
    ∧ (movement_wizard_step4 exCtx4).violations.length = 1
    ∧ (movement_wizard_step4 exCtx4).db.movements.length = 2
    ∧ openLookup (movement_wizard_step4 exCtx4).db 1 1 = 2 := by
  refine ⟨by decide, by decide, by decide, by decide⟩

-- -------------------- C9 -------------------------------------------------------

/-- Step-4 submission for the C9 counterexample: a single OUT line whose
quantity field is malformed, on a variant with default price 4. -/
def exCtx9 : WizardCtx :=
  ⟨⟨[⟨1, "Ale"⟩], [⟨1, 1, some 30, some 4⟩], [], fun _ => 0, []⟩,
   1, "OUT", [.val 1], [.bad], [.missing], [.missing], none, none, none, none, none⟩

/-- C9 counterexample: the line with the malformed quantity is not rejected:
it is recorded, with the quantity silently coerced to 0 (price defaulted from
the variant, deposit defaulted from the category). -/
theorem malformed_qty_counterexample :
    (movement_wizard_step4 exCtx9).inserted = 1
    ∧ (movement_wizard_step4 exCtx9).db.movements =
        [⟨1, 1, "OUT", some 0, some 4, some (.val 30), none⟩] := by
  refine ⟨by decide, by decide⟩

/-- C9 (amended): a malformed quantity field is coerced to 0 and the line is
still recorded (with qty 0) rather than rejected, and malformed optional
overrides fall back without failing the line: the unit price to the
variant's default price and the deposit to the category default. -/
theorem malformed_fields_amended (db : Db) (c vid : Nat) (v : Variant) (p : Product)
    (hv : db.variants.find? (fun x => x.id == vid) = some v)
    (hp : db.products.find? (fun x => x.id == v.productId) = some p)
    (he : equipOnlyName (pyLower p.name) = false) :
    movement_wizard_step4 ⟨db, c, "OUT", [.val vid], [.bad], [.bad], [.bad],
        none, none, none, none, none⟩ =
      ⟨{ db with
          movements := db.movements ++ [⟨c, vid, "OUT", some 0, v.price_ttc,
            some (.val (default_deposit_for_product (some p))), none⟩],
          inventory := invInsertDelta db.inventory "OUT" vid 0 },
       [], 1⟩ := by
  have hline : lineOutcome ⟨db, c, "OUT", [.val vid], [.bad], [.bad], [.bad],
      none, none, none, none, none⟩ [] 0 =
      .insert ⟨c, vid, "OUT", some 0, v.price_ttc,
        some (.val (default_deposit_for_product (some p))), none⟩ := by
    unfold lineOutcome
    simp [hv, hp, he, parseQty, parseMoney, eqNotes, String.intercalate]
  have hr1 : List.range 1 = [0] := by decide
  unfold movement_wizard_step4
  simp [hr1, step4Step, hline]

/-- Concrete database for the C9 amended witness. -/
def exDb9w : Db := ⟨[⟨1, "Ale"⟩], [⟨1, 1, some 30, some 4⟩], [], fun _ => 0, []⟩

/-- Witness for C9 (amended) at a concrete database. -/
theorem malformed_fields_amended_witness :
    movement_wizard_step4 ⟨exDb9w, 1, "OUT", [.val 1], [.bad], [.bad], [.bad],
        none, none, none, none, none⟩ =
      ⟨{ exDb9w with
          movements := exDb9w.movements ++ [⟨1, 1, "OUT", some 0,
            (⟨1, 1, some 30, some 4⟩ : Variant).price_ttc,
            some (.val (default_deposit_for_product (some ⟨1, "Ale"⟩))), none⟩],
          inventory := invInsertDelta exDb9w.inventory "OUT" 1 0 },
       [], 1⟩ :=
  malformed_fields_amended exDb9w 1 1 ⟨1, 1, some 30, some 4⟩ ⟨1, "Ale"⟩ rfl rfl (by decide)

-- -------------------- Reorder/stock engine -------------------------------------

/-- One row of `get_stock_items`: `(Variant, Product, inv_qty, min_qty)`. -/
structure StockItem where
  variant : Variant
  product : Product
  inv_qty : Int
  min_qty : Int
deriving DecidableEq, Repr

/-- `utils.get_stock_items`: every variant joined to its product (rows in
catalog order, see `Db.variants`), inventory and rule thresholds coalesced
with 0, and maintenance-cup products hidden (`_is_hidden`). -/
def get_stock_items (db : Db) : List StockItem :=
  (db.variants.filterMap (fun v =>
    (db.products.find? (fun p => p.id == v.productId)).map (fun p =>
      (⟨v, p, db.inventory v.id,
        ((db.rules.find? (fun r => r.1 == v.id)).map (fun r => r.2)).getD 0⟩ : StockItem)))).filter
    (fun it => !is_cup_maintenance it.product)

/-- A reorder alert
(`SimpleNamespace(product, variant, inv_qty, min_qty, missing)`). -/
structure Alert where
  product : Product
  variant : Variant
  inv_qty : Int
  min_qty : Int
  missing : Int
deriving DecidableEq, Repr

/-- `utils.compute_reorder_alerts`: walk the stock rows in order, ignore rows
with `min_qty <= 0` (no reorder rule), and alert when `inv_qty < min_qty`. -/
def compute_reorder_alerts (db : Db) : List Alert :=
  (get_stock_items db).foldl (fun acc it =>
    if it.min_qty ≤ 0 then acc
    else if it.inv_qty < it.min_qty then
      acc ++ [⟨it.product, it.variant, it.inv_qty, it.min_qty, it.min_qty - it.inv_qty⟩]
    else acc) []

theorem alerts_fold_spec :
    ∀ (l : List StockItem) (acc : List Alert),
      l.foldl (fun acc it =>
        if it.min_qty ≤ 0 then acc
        else if it.inv_qty < it.min_qty then
          acc ++ [⟨it.product, it.variant, it.inv_qty, it.min_qty, it.min_qty - it.inv_qty⟩]
        else acc) acc =
      acc ++ l.filterMap (fun it =>
        if 0 < it.min_qty ∧ it.inv_qty < it.min_qty then
          some ⟨it.product, it.variant, it.inv_qty, it.min_qty, it.min_qty - it.inv_qty⟩
        else none) := by
  intro l
  induction l with
  | nil => intro acc; simp
  | cons it t ih =>
    intro acc
    rw [List.foldl_cons, List.filterMap_cons]
    by_cases h1 : it.min_qty ≤ 0
    · have h2 : ¬ (0 < it.min_qty ∧ it.inv_qty < it.min_qty) := by omega
      simp [h1, h2, ih]
    · by_cases h2 : it.inv_qty < it.min_qty
      · have h3 : (0 < it.min_qty ∧ it.inv_qty < it.min_qty) := by omega
        simp [h1, h2, h3, ih, List.append_assoc]
      · have h3 : ¬ (0 < it.min_qty ∧ it.inv_qty < it.min_qty) := by omega
        simp [h1, h2, h3, ih]

/-- C8 (amended): the alert list consists of exactly the stock rows (which
hide maintenance-cup variants) whose configured threshold is positive (absent
rules read as 0 and never alert) and whose inventory is strictly below it,
each with `missing = min_qty - inv_qty`, kept in the stock listing's catalog
order (product name, then size) — not sorted by shortfall. -/
theorem reorder_alerts_amended (db : Db) :
    compute_reorder_alerts db =
      (get_stock_items db).filterMap (fun it =>
        if 0 < it.min_qty ∧ it.inv_qty < it.min_qty then
          some ⟨it.product, it.variant, it.inv_qty, it.min_qty, it.min_qty - it.inv_qty⟩
        else none)
    ∧ (compute_reorder_alerts db).all (fun a =>
        decide (0 < a.min_qty) && decide (a.inv_qty < a.min_qty)
          && !is_cup_maintenance a.product
          && (((db.rules.find? (fun r => r.1 == a.variant.id)).map (fun r => r.2)).getD 0
              == a.min_qty)) = true := by
  have hmain : compute_reorder_alerts db =
      (get_stock_items db).filterMap (fun it =>
        if 0 < it.min_qty ∧ it.inv_qty < it.min_qty then
          some ⟨it.product, it.variant, it.inv_qty, it.min_qty, it.min_qty - it.inv_qty⟩
        else none) := by
    unfold compute_reorder_alerts
    simpa using alerts_fold_spec (get_stock_items db) []
  refine ⟨hmain, ?_⟩
  rw [List.all_eq_true]
  intro a ha
  rw [hmain] at ha
  rcases List.mem_filterMap.mp ha with ⟨it, hit, hcond⟩
  by_cases hc : 0 < it.min_qty ∧ it.inv_qty < it.min_qty
  · rw [if_pos hc] at hcond
    have ha2 : a = ⟨it.product, it.variant, it.inv_qty, it.min_qty,
        it.min_qty - it.inv_qty⟩ := by
      exact (Option.some.injEq _ _).mp hcond |>.symm ▸ rfl
    subst ha2
    rcases List.mem_filter.mp hit with ⟨hmem, hhide⟩
    rcases List.mem_filterMap.mp hmem with ⟨v, _, hv⟩
    rcases Option.map_eq_some'.mp hv with ⟨p, hp, hmk⟩
    simp only [Bool.and_eq_true, decide_eq_true_eq, Bool.not_eq_true']
    refine ⟨⟨⟨hc.1, hc.2⟩, ?_⟩, ?_⟩
    · simpa using hhide
    · rw [← hmk]
      simp
  · rw [if_neg hc] at hcond
    exact absurd hcond (by simp)

/-- Catalog for the C8 counterexample, in name order: `Ale` (rule 1, stock
0), `Brune` (rule 10, stock 0) and `Ecocup lavage` (rule 5, stock 0, hidden
as maintenance). -/
def exDb8 : Db :=
  ⟨[⟨1, "Ale"⟩, ⟨2, "Brune"⟩, ⟨3, "Ecocup lavage"⟩],
   [⟨1, 1, some 30, some 100⟩, ⟨2, 2, some 30, some 100⟩, ⟨3, 3, some 1, some 0⟩],
   [], fun _ => 0, [(1, 1), (2, 10), (3, 5)]⟩

/-- C8 counterexample: the shortfalls of the returned alerts are `[1, 10]` —
catalog order, not sorted descending by shortfall — and the maintenance-cup
variant 3 (rule `min_qty = 5`, stock 0 strictly below it) is absent from the
alerts, so the claimed characterisation fails on both counts. -/
theorem reorder_alerts_counterexample :
    ((compute_reorder_alerts exDb8).map (fun a => a.missing)) = [1, 10]
    ∧ (compute_reorder_alerts exDb8).all (fun a => a.variant.id != 3) = true
    ∧ ¬ List.Sorted (fun a b : Int => b ≤ a)
        ((compute_reorder_alerts exDb8).map (fun a => a.missing)) := by
  have h1 : ((compute_reorder_alerts exDb8).map (fun a => a.missing)) = [1, 10] := by
    decide
  refine ⟨h1, by decide, ?_⟩
  rw [h1]
  decide
